import Mathlib

/-!
Verification of the disk-population coupling and lifecycle engine of
`src/vader_cluster.py` (dynamical truncation and photoevaporation of
circumstellar disks in a star cluster).

The source manipulates a vader disk as a 1-D radial grid of cells, each
holding a radius `r` (au), a `column_density` (g/cm^2) and an `area` (au^2).
We embed such a grid as a `List Cell` over exact rationals; the AMUSE
implicit unit conversions (`value_in` calls) become explicit multiplicative
constants.  Functions are translated statement by statement from the Python
source.  Rational constants are written with `mkRat` so that concrete
evaluations reduce in the kernel.
-/

namespace VaderCluster

/-- One cell of a vader disk grid: radius in au, column density in g/cm^2,
area in au^2 (as read off `disk.grid[i]` in the source). -/
structure Cell where
  r : ℚ
  column_density : ℚ
  area : ℚ
deriving DecidableEq, Repr

instance : Inhabited Cell := ⟨⟨0, 0, 0⟩⟩

/-- A vader disk grid, the ordered list of its cells. -/
abbrev DiskGrid := List Cell

/-- Unit conversion applied by `d.value_in(mass_to_remove.unit / units.au ** 2)`
on a column density stored in g/cm^2 (AMUSE constant,
1 g/cm^2 = 1.1253e-7 MSun/au^2). -/
def gcm2_to_MSun_au2 : ℚ := mkRat 11253 100000000000

/-- Unit conversion applied by `d.value_in(units.MJupiter / units.cm**2)` times
`a.value_in(units.cm**2)` in `get_disk_mass`, expressed against our stored
units (g/cm^2 and au^2): 1 g/cm^2 * 1 au^2 = 1.17882e-4 MJupiter. -/
def gcm2_to_MJup_au2 : ℚ := mkRat 117882 1000000000

/-- Default `density_limit` of `get_disk_radius` (1e-10 g/cm^2). -/
def density_floor_default : ℚ := mkRat 1 10000000000

/-- Default `density_limit` written by `truncate_disk` (1e-11 g/cm^2). -/
def truncation_density : ℚ := mkRat 1 100000000000

/-- The scanning loop of `get_disk_radius`: walk the cells in grid order
keeping the previously seen radius `prev_r`; at the first cell whose column
density is below `density_limit` return `prev_r`, otherwise return the last
radius seen. -/
def gdrLoop (density_limit : ℚ) : DiskGrid → ℚ → ℚ
  | [], prev_r => prev_r
  | c :: rest, prev_r =>
    if c.column_density < density_limit then prev_r else gdrLoop density_limit rest c.r

/-- `get_disk_radius(disk, density_limit)` from the source: `prev_r` starts at
the radius of cell 0 and the grid is scanned from the innermost cell. -/
def get_disk_radius (g : DiskGrid) (density_limit : ℚ) : ℚ :=
  gdrLoop density_limit g g.headI.r

/-- `get_disk_mass(disk, radius)` from the source.  The Python code zips the
masked radius array `grid.r[grid.r <= radius]` positionally against the full
density and area arrays, so it sums `density * area` over the first `k`
cells, where `k` is the number of cells with `r <= radius`. -/
def get_disk_mass (g : DiskGrid) (radius : ℚ) : ℚ :=
  ((g.take (g.countP (fun c => c.r ≤ radius))).map
    (fun c => c.column_density * gcm2_to_MJup_au2 * c.area)).sum

/-- `truncate_disk(disk, new_radius, density_limit)` from the source: set the
column density of every cell with `r > new_radius` to `density_limit`. -/
def truncate_disk (g : DiskGrid) (new_radius : ℚ) (density_limit : ℚ) : DiskGrid :=
  g.map (fun c =>
    if new_radius < c.r then { c with column_density := density_limit } else c)

/-- First index of the grid at which the column density falls below the given
floor (`g.length` when density never drops). -/
def firstDrop (g : DiskGrid) (density_limit : ℚ) : Nat :=
  g.findIdx (fun c => c.column_density < density_limit)

theorem firstDrop_not_lt_before (density_limit : ℚ) :
    ∀ g : DiskGrid, ∀ i < firstDrop g density_limit,
      ¬ (g.getD i default).column_density < density_limit := by
  intro g
  induction g with
  | nil => intro i hi; simp [firstDrop] at hi
  | cons c rest ih =>
    intro i hi
    by_cases hc : c.column_density < density_limit
    · have : firstDrop (c :: rest) density_limit = 0 := by
        simp [firstDrop, List.findIdx_cons, hc]
      omega
    · have hfd : firstDrop (c :: rest) density_limit =
          firstDrop rest density_limit + 1 := by
        simp [firstDrop, List.findIdx_cons, hc]
      rw [hfd] at hi
      cases i with
      | zero => simpa using hc
      | succ j =>
        have hj : j < firstDrop rest density_limit := by omega
        simpa using ih j hj

theorem firstDrop_lt_at (density_limit : ℚ) :
    ∀ g : DiskGrid, firstDrop g density_limit < g.length →
      (g.getD (firstDrop g density_limit) default).column_density <
        density_limit := by
  intro g
  induction g with
  | nil => intro h; simp [firstDrop] at h
  | cons c rest ih =>
    intro h
    by_cases hc : c.column_density < density_limit
    · have h0 : firstDrop (c :: rest) density_limit = 0 := by
        simp [firstDrop, List.findIdx_cons, hc]
      rw [h0]
      simpa using hc
    · have hfd : firstDrop (c :: rest) density_limit =
          firstDrop rest density_limit + 1 := by
        simp [firstDrop, List.findIdx_cons, hc]
      rw [hfd] at h ⊢
      simp only [List.length_cons, Nat.add_lt_add_iff_right] at h
      simpa using ih h

theorem gdrLoop_eq_firstDrop (density_limit : ℚ) (l : DiskGrid) (prev : ℚ) :
    gdrLoop density_limit l prev =
      (if firstDrop l density_limit = 0 then prev
       else (l.getD (firstDrop l density_limit - 1) default).r) := by
  induction l generalizing prev with
  | nil => simp [gdrLoop, firstDrop]
  | cons c rest ih =>
    by_cases hc : c.column_density < density_limit
    · simp [gdrLoop, firstDrop, List.findIdx_cons, hc]
    · have hfd : firstDrop (c :: rest) density_limit =
          firstDrop rest density_limit + 1 := by
        simp [firstDrop, List.findIdx_cons, hc]
      rw [hfd]
      simp only [gdrLoop, if_neg hc, ih]
      rcases Nat.eq_zero_or_pos (firstDrop rest density_limit) with h0 | hpos
      · simp [h0]
      · have h1 : firstDrop rest density_limit + 1 - 1 =
            (firstDrop rest density_limit - 1) + 1 := by omega
        rw [if_neg (by omega), h1]
        simp [Nat.ne_of_gt hpos]

theorem get_disk_radius_eq_firstDrop (g : DiskGrid) (density_limit : ℚ)
    (hne : g ≠ []) :
    get_disk_radius g density_limit =
      (g.getD (firstDrop g density_limit - 1) default).r := by
  rw [get_disk_radius, gdrLoop_eq_firstDrop]
  rcases g with _ | ⟨c, rest⟩
  · exact absurd rfl hne
  · rcases Nat.eq_zero_or_pos (firstDrop (c :: rest) density_limit) with
      h0 | hpos
    · simp [h0, List.headI]
    · rw [if_neg (Nat.ne_of_gt hpos)]

/-- C7: `get_disk_radius` scans cells from smallest to largest radius and
returns the radius of the cell just before the first cell whose column
density drops below the floor (the last cell with density at or above the
floor); if the very first cell is already below the floor it returns that
first cell's radius, and if no cell drops below it returns the last cell's
radius.  Stated with `j := firstDrop`, the returned radius is that of cell
`j - 1` (natural subtraction: the `j = 0` and `j = length` degenerate cases
included), every cell before `j` has density at or above the floor, and cell
`j` (when it exists) is below the floor. -/
theorem get_disk_radius_first_drop (g : DiskGrid) (density_limit : ℚ)
    (hne : g ≠ []) :
    get_disk_radius g density_limit =
        (g.getD (firstDrop g density_limit - 1) default).r ∧
      (∀ i < firstDrop g density_limit,
        ¬ (g.getD i default).column_density < density_limit) ∧
      (firstDrop g density_limit < g.length →
        (g.getD (firstDrop g density_limit) default).column_density <
          density_limit) := by
  exact ⟨get_disk_radius_eq_firstDrop g density_limit hne,
    firstDrop_not_lt_before density_limit g, firstDrop_lt_at density_limit g⟩

/-- Witness for `get_disk_radius_first_drop` on a concrete three-cell grid
whose density drops below the floor at the last cell. -/
theorem get_disk_radius_first_drop_witness :
    ((([⟨1, mkRat 1 1000000000, 5⟩, ⟨2, mkRat 1 1000000000, 6⟩,
        ⟨3, mkRat 1 1000000000000, 7⟩] : DiskGrid)) ≠ []) ∧
      (get_disk_radius
          [⟨1, mkRat 1 1000000000, 5⟩, ⟨2, mkRat 1 1000000000, 6⟩,
            ⟨3, mkRat 1 1000000000000, 7⟩] density_floor_default =
        (([⟨1, mkRat 1 1000000000, 5⟩, ⟨2, mkRat 1 1000000000, 6⟩,
            ⟨3, mkRat 1 1000000000000, 7⟩] : DiskGrid).getD
          (firstDrop
            [⟨1, mkRat 1 1000000000, 5⟩, ⟨2, mkRat 1 1000000000, 6⟩,
              ⟨3, mkRat 1 1000000000000, 7⟩] density_floor_default - 1)
          default).r ∧
      (∀ i < firstDrop
          [⟨1, mkRat 1 1000000000, 5⟩, ⟨2, mkRat 1 1000000000, 6⟩,
            ⟨3, mkRat 1 1000000000000, 7⟩] density_floor_default,
        ¬ (([⟨1, mkRat 1 1000000000, 5⟩, ⟨2, mkRat 1 1000000000, 6⟩,
            ⟨3, mkRat 1 1000000000000, 7⟩] : DiskGrid).getD i
            default).column_density < density_floor_default) ∧
      (firstDrop
          [⟨1, mkRat 1 1000000000, 5⟩, ⟨2, mkRat 1 1000000000, 6⟩,
            ⟨3, mkRat 1 1000000000000, 7⟩] density_floor_default <
          ([⟨1, mkRat 1 1000000000, 5⟩, ⟨2, mkRat 1 1000000000, 6⟩,
            ⟨3, mkRat 1 1000000000000, 7⟩] : DiskGrid).length →
        (([⟨1, mkRat 1 1000000000, 5⟩, ⟨2, mkRat 1 1000000000, 6⟩,
            ⟨3, mkRat 1 1000000000000, 7⟩] : DiskGrid).getD
            (firstDrop
              [⟨1, mkRat 1 1000000000, 5⟩, ⟨2, mkRat 1 1000000000, 6⟩,
                ⟨3, mkRat 1 1000000000000, 7⟩] density_floor_default)
            default).column_density < density_floor_default)) :=
  ⟨by decide, get_disk_radius_first_drop _ _ (by decide)⟩

theorem gdrLoop_truncate_le {density_limit floor R : ℚ}
    (hfl : density_limit < floor) :
    ∀ (l : DiskGrid) (prev : ℚ), prev ≤ R →
      gdrLoop floor
        (l.map (fun c =>
          if R < c.r then { c with column_density := density_limit } else c))
        prev ≤ R := by
  intro l
  induction l with
  | nil => intro prev h; simpa [gdrLoop] using h
  | cons c rest ih =>
    intro prev hprev
    by_cases hr : R < c.r
    · simp only [List.map_cons, if_pos hr, gdrLoop]
      rw [if_pos hfl]
      exact hprev
    · simp only [List.map_cons, if_neg hr, gdrLoop]
      by_cases hd : c.column_density < floor
      · simpa [hd] using hprev
      · simpa [hd] using ih c.r (le_of_not_lt hr)

/-- C8: after `truncate_disk` at a radius no smaller than the innermost
cell's radius, the disk radius reported by `get_disk_radius` at the default
floor (1e-10 g/cm^2) is at most the truncation radius, because the density
written into the truncated cells (1e-11 g/cm^2) lies strictly below the
edge-detection floor. -/
theorem truncate_visible_to_radius_query (g : DiskGrid) (new_radius : ℚ)
    (hne : g ≠ []) (hin : g.headI.r ≤ new_radius) :
    get_disk_radius (truncate_disk g new_radius truncation_density)
      density_floor_default ≤ new_radius := by
  have hfl : truncation_density < density_floor_default := by decide
  rw [get_disk_radius, truncate_disk]
  have hhead : (g.map (fun c =>
      if new_radius < c.r then { c with column_density := truncation_density }
      else c)).headI.r = g.headI.r := by
    rcases g with _ | ⟨c, rest⟩
    · exact absurd rfl hne
    · by_cases hr : new_radius < c.r <;> simp [List.headI, hr]
  rw [hhead]
  exact gdrLoop_truncate_le hfl g g.headI.r hin

/-- Witness for `truncate_visible_to_radius_query` on a concrete grid and
truncation radius. -/
theorem truncate_visible_to_radius_query_witness :
    (([⟨1, mkRat 1 1000000000, 5⟩, ⟨2, mkRat 1 1000000000, 6⟩,
        ⟨3, mkRat 1 1000000000, 7⟩] : DiskGrid) ≠ [] ∧
      ([⟨1, mkRat 1 1000000000, 5⟩, ⟨2, mkRat 1 1000000000, 6⟩,
        ⟨3, mkRat 1 1000000000, 7⟩] : DiskGrid).headI.r ≤ (2 : ℚ)) ∧
    get_disk_radius
        (truncate_disk
          [⟨1, mkRat 1 1000000000, 5⟩, ⟨2, mkRat 1 1000000000, 6⟩,
            ⟨3, mkRat 1 1000000000, 7⟩] 2 truncation_density)
        density_floor_default ≤ (2 : ℚ) :=
  ⟨⟨by decide, by decide⟩,
    truncate_visible_to_radius_query _ _ (by decide) (by decide)⟩

/-- Mass of one grid cell as accumulated by `evaporate`:
`d.value_in(mass_to_remove.unit / units.au**2) * a.value_in(units.au**2)`,
with `mass_to_remove` in MSun. -/
def cell_mass_msun (c : Cell) : ℚ :=
  c.column_density * gcm2_to_MSun_au2 * c.area

/-- The `init_cell` index computed by `evaporate`:
`numpy.where(disk.grid.r == radius)[0][0]` with
`radius = get_disk_radius(disk)`, i.e. the first grid index whose radius
equals the reported disk radius. -/
def init_cell (g : DiskGrid) : Nat :=
  g.findIdx (fun c => c.r == get_disk_radius g density_floor_default)

/-- The outside-in sweep of `evaporate` (`for i in range(init_cell)[::-1]`),
starting at cell `i` with running total `swiped_mass`.  At each cell the
cell's mass is added; while the total stays below `mass_to_remove` the sweep
continues inward; once it reaches the target at cell `i > 0` the disk is
truncated at that cell's radius; reaching the target at cell `0`, or
exhausting the loop, yields `none` (Python falls off the loop and returns
`None`). -/
def evapLoop (g : DiskGrid) (mass_to_remove : ℚ) : Nat → ℚ → Option DiskGrid
  | 0, swiped_mass =>
    if swiped_mass + cell_mass_msun (g.getD 0 default) < mass_to_remove then
      none
    else none
  | i + 1, swiped_mass =>
    if swiped_mass + cell_mass_msun (g.getD (i + 1) default) < mass_to_remove then
      evapLoop g mass_to_remove i
        (swiped_mass + cell_mass_msun (g.getD (i + 1) default))
    else some (truncate_disk g ((g.getD (i + 1) default).r) truncation_density)

/-- `evaporate(disk, mass_to_remove)` from the source.  When `init_cell = 0`
the Python loop body never runs and the function returns `None`. -/
def evaporate (g : DiskGrid) (mass_to_remove : ℚ) : Option DiskGrid :=
  match init_cell g with
  | 0 => none
  | k + 1 => evapLoop g mass_to_remove k 0

/-- Total cell mass over cells `1 .. i` of the grid (the cells a full
inward sweep stopping before the innermost cell accumulates). -/
def sumInner (g : DiskGrid) (i : Nat) : ℚ :=
  ((List.range i).map (fun j => cell_mass_msun (g.getD (j + 1) default))).sum

/-- Total cell mass the `evaporate` sweep can accumulate without counting the
innermost cell: cells `1 .. init_cell - 1`. -/
def mass_above_innermost (g : DiskGrid) : ℚ :=
  sumInner g (init_cell g - 1)

/-- The quantity named by the claim for C2: the total disk mass accumulated
outside-in over the cells inside the current outer edge, i.e. cells
`0 .. init_cell - 1` (exactly the cells the `evaporate` loop visits). -/
def mass_inside_edge (g : DiskGrid) : ℚ :=
  ((List.range (init_cell g)).map (fun j => cell_mass_msun (g.getD j default))).sum

theorem sumInner_succ (g : DiskGrid) (i : Nat) :
    sumInner g (i + 1) = sumInner g i + cell_mass_msun (g.getD (i + 1) default) := by
  simp [sumInner, List.range_succ]

theorem evapLoop_none_sum (g : DiskGrid) (m : ℚ) :
    ∀ (i : Nat) (s : ℚ), s < m → evapLoop g m i s = none →
      s + sumInner g i < m := by
  intro i
  induction i with
  | zero => intro s hs _; simpa [sumInner] using hs
  | succ i ih =>
    intro s hs h
    rw [evapLoop] at h
    by_cases hsw : s + cell_mass_msun (g.getD (i + 1) default) < m
    · rw [if_pos hsw] at h
      have := ih _ hsw h
      rw [sumInner_succ]
      linarith
    · rw [if_neg hsw] at h
      exact absurd h (by simp)

theorem evapLoop_some_truncate (g : DiskGrid) (m : ℚ) :
    ∀ (i : Nat) (s : ℚ) (g2 : DiskGrid), evapLoop g m i s = some g2 →
      ∃ j, 1 ≤ j ∧ j ≤ i ∧
        g2 = truncate_disk g ((g.getD j default).r) truncation_density := by
  intro i
  induction i with
  | zero =>
    intro s g2 h
    rw [evapLoop] at h
    by_cases hsw : s + cell_mass_msun (g.getD 0 default) < m <;>
      simp [hsw] at h
  | succ i ih =>
    intro s g2 h
    rw [evapLoop] at h
    by_cases hsw : s + cell_mass_msun (g.getD (i + 1) default) < m
    · rw [if_pos hsw] at h
      obtain ⟨j, hj1, hj2, hj3⟩ := ih _ _ h
      exact ⟨j, hj1, Nat.le_succ_of_le hj2, hj3⟩
    · rw [if_neg hsw] at h
      exact ⟨i + 1, Nat.succ_le_succ (Nat.zero_le _), Nat.le_refl _,
        (Option.some_injective _ h).symm⟩

/-- For any Boolean predicate, the element found by `findIdx` satisfies the
predicate whenever the index is in range. -/
theorem findIdx_getD_holds {α : Type} (d : α) (p : α → Bool) :
    ∀ g : List α, g.findIdx p < g.length → p (g.getD (g.findIdx p) d) = true := by
  intro g
  induction g with
  | nil => intro h; simp at h
  | cons c rest ih =>
    intro h
    by_cases hc : p c
    · simp [List.findIdx_cons, hc]
    · rw [List.findIdx_cons] at h ⊢
      simp only [hc, cond_false] at h ⊢
      simp only [List.length_cons, Nat.add_lt_add_iff_right] at h
      simpa using ih h

theorem get_disk_radius_is_cell (g : DiskGrid) (hne : g ≠ []) :
    ∃ i, i < g.length ∧
      (g.getD i default).r = get_disk_radius g density_floor_default := by
  refine ⟨firstDrop g density_floor_default - 1, ?_, ?_⟩
  · have h1 : firstDrop g density_floor_default ≤ g.length :=
      List.findIdx_le_length _
    have h2 : 0 < g.length := List.length_pos.mpr hne
    omega
  · exact (get_disk_radius_eq_firstDrop g density_floor_default hne).symm

theorem init_cell_lt_length (g : DiskGrid) (hne : g ≠ []) :
    init_cell g < g.length := by
  rw [init_cell, List.findIdx_lt_length]
  obtain ⟨i, hi, hr⟩ := get_disk_radius_is_cell g hne
  refine ⟨g.getD i default, ?_, by simpa using hr⟩
  rw [List.getD_eq_getElem?_getD, List.getElem?_eq_getElem hi, Option.getD_some]
  exact g.getElem_mem hi

theorem init_cell_radius (g : DiskGrid) (hne : g ≠ []) :
    (g.getD (init_cell g) default).r =
      get_disk_radius g density_floor_default := by
  have h := findIdx_getD_holds (default : Cell)
    (fun c => c.r == get_disk_radius g density_floor_default) g
    (init_cell_lt_length g hne)
  rw [init_cell]
  simpa using h

/-- Nonempty grids: the grid returned truncating a disk is nonempty too. -/
theorem evaporate_ne_nil (g : DiskGrid) (m : ℚ) (g2 : DiskGrid)
    (h : evaporate g m = some g2) : g ≠ [] := by
  intro hg
  rw [hg] at h
  rw [evaporate] at h
  simp [init_cell, get_disk_radius, gdrLoop] at h

theorem pairwise_r_getD {g : DiskGrid}
    (hsorted : List.Pairwise (fun a b => a.r ≤ b.r) g) {i j : Nat}
    (hij : i < j) (hj : j < g.length) :
    (g.getD i default).r ≤ (g.getD j default).r := by
  have hi : i < g.length := Nat.lt_trans hij hj
  rw [List.getD_eq_getElem?_getD, List.getElem?_eq_getElem hi, Option.getD_some,
    List.getD_eq_getElem?_getD, List.getElem?_eq_getElem hj, Option.getD_some]
  exact List.pairwise_iff_getElem.mp hsorted i j hi hj hij

theorem headI_eq_getD_zero (g : DiskGrid) (hne : g ≠ []) :
    g.headI = g.getD 0 default := by
  rcases g with _ | ⟨c, rest⟩
  · exact absurd rfl hne
  · rfl

/-- Helper shared by the truncation-visibility and evaporation claims:
truncating at any radius at least the innermost cell's radius caps the
subsequently queried disk radius by the truncation radius. -/
theorem gdr_truncate_le (g : DiskGrid) (R : ℚ) (hne : g ≠ [])
    (hin : g.headI.r ≤ R) :
    get_disk_radius (truncate_disk g R truncation_density)
      density_floor_default ≤ R := by
  have hfl : truncation_density < density_floor_default := by decide
  rw [get_disk_radius, truncate_disk]
  have hhead : (g.map (fun c =>
      if R < c.r then { c with column_density := truncation_density }
      else c)).headI.r = g.headI.r := by
    rcases g with _ | ⟨c, rest⟩
    · exact absurd rfl hne
    · by_cases hr : R < c.r <;> simp [List.headI, hr]
  rw [hhead]
  exact gdrLoop_truncate_le hfl g g.headI.r hin

/-- C2 (amended): for a grid with radii sorted outward and a positive mass
target, `evaporate` is monotone — a returned disk's radius is at most the
input disk's radius — and it returns `None` only when the disk mass
accumulated over the cells strictly between the innermost cell and the outer
edge (cells `1 .. init_cell - 1`) is less than `mass_to_remove`.  (The
original claim, counting the innermost cell's mass as well, is refuted by
`evaporate_none_despite_mass_at_least_target`.) -/
theorem evaporate_monotone_none_characterization (g : DiskGrid) (m : ℚ)
    (hsorted : List.Pairwise (fun a b => a.r ≤ b.r) g) (hm : 0 < m) :
    (∀ g2, evaporate g m = some g2 →
      get_disk_radius g2 density_floor_default ≤
        get_disk_radius g density_floor_default) ∧
    (evaporate g m = none → mass_above_innermost g < m) := by
  constructor
  · intro g2 h
    have hne : g ≠ [] := evaporate_ne_nil g m g2 h
    rw [evaporate] at h
    rcases hk : init_cell g with _ | k
    · rw [hk] at h; exact absurd h (by simp)
    · rw [hk] at h
      obtain ⟨j, hj1, hj2, hj3⟩ := evapLoop_some_truncate g m k 0 g2 h
      have hjlt : j < init_cell g := by omega
      have hlen : init_cell g < g.length := init_cell_lt_length g hne
      have hjlen : j < g.length := Nat.lt_trans hjlt hlen
      have h0j : (g.getD 0 default).r ≤ (g.getD j default).r :=
        pairwise_r_getD hsorted (by omega) hjlen
      have hhead : g.headI.r ≤ (g.getD j default).r := by
        rw [headI_eq_getD_zero g hne]; exact h0j
      have hcap : get_disk_radius g2 density_floor_default ≤
          (g.getD j default).r := by
        rw [hj3]; exact gdr_truncate_le g _ hne hhead
      have hup : (g.getD j default).r ≤
          get_disk_radius g density_floor_default := by
        rw [← init_cell_radius g hne]
        exact pairwise_r_getD hsorted hjlt hlen
      exact le_trans hcap hup
  · intro h
    rw [evaporate] at h
    rcases hk : init_cell g with _ | k
    · rw [mass_above_innermost, hk]
      simpa [sumInner] using hm
    · rw [hk] at h
      have := evapLoop_none_sum g m k 0 hm h
      rw [mass_above_innermost, hk]
      simpa using this

/-- Witness for `evaporate_monotone_none_characterization` on a concrete
sorted grid and positive target. -/
theorem evaporate_monotone_none_characterization_witness :
    (List.Pairwise (fun a b : Cell => a.r ≤ b.r)
        [⟨1, 1, 2⟩, ⟨2, 1, 1⟩, ⟨3, 1, 1⟩] ∧ (0 : ℚ) < mkRat 2 10000000) ∧
    ((∀ g2, evaporate [⟨1, 1, 2⟩, ⟨2, 1, 1⟩, ⟨3, 1, 1⟩] (mkRat 2 10000000) =
        some g2 →
      get_disk_radius g2 density_floor_default ≤
        get_disk_radius [⟨1, 1, 2⟩, ⟨2, 1, 1⟩, ⟨3, 1, 1⟩]
          density_floor_default) ∧
    (evaporate [⟨1, 1, 2⟩, ⟨2, 1, 1⟩, ⟨3, 1, 1⟩] (mkRat 2 10000000) = none →
      mass_above_innermost [⟨1, 1, 2⟩, ⟨2, 1, 1⟩, ⟨3, 1, 1⟩] <
        mkRat 2 10000000)) :=
  ⟨⟨by decide, by decide⟩,
    evaporate_monotone_none_characterization _ _ (by decide) (by decide)⟩

/-- Counterexample for C2 as stated: on this grid the target is first met
only at the innermost cell, so `evaporate` returns `None` even though the
total disk mass inside the outer edge is at least `mass_to_remove`. -/
theorem evaporate_none_despite_mass_at_least_target :
    evaporate [⟨1, 1, 2⟩, ⟨2, 1, 1⟩, ⟨3, 1, 1⟩] (mkRat 2 10000000) = none ∧
    ¬ mass_inside_edge [⟨1, 1, 2⟩, ⟨2, 1, 1⟩, ⟨3, 1, 1⟩] < mkRat 2 10000000 := by
  constructor <;> with_unfolding_all decide

theorem truncate_getD_zero (g : DiskGrid) (R density_limit : ℚ)
    (hne : g ≠ []) (h0 : ¬ R < (g.getD 0 default).r) :
    (truncate_disk g R density_limit).getD 0 default = g.getD 0 default := by
  rcases g with _ | ⟨c, rest⟩
  · exact absurd rfl hne
  · have hc : ¬ R < c.r := by simpa using h0
    simp [truncate_disk, hc]

/-- C9: whenever `evaporate` returns a disk, the truncation was applied at a
cell of index at least 1 (and below `init_cell`), so the returned disk has
the same number of cells as the input, is not empty, and its innermost cell
is untouched. -/
theorem evaporate_retains_innermost_cell (g : DiskGrid) (m : ℚ)
    (g2 : DiskGrid)
    (hsorted : List.Pairwise (fun a b => a.r ≤ b.r) g)
    (h : evaporate g m = some g2) :
    (∃ j, 1 ≤ j ∧ j < init_cell g ∧
      g2 = truncate_disk g ((g.getD j default).r) truncation_density) ∧
    g2.length = g.length ∧ g2 ≠ [] ∧
    g2.getD 0 default = g.getD 0 default := by
  have hne : g ≠ [] := evaporate_ne_nil g m g2 h
  rw [evaporate] at h
  rcases hk : init_cell g with _ | k
  · rw [hk] at h; exact absurd h (by simp)
  · rw [hk] at h
    obtain ⟨j, hj1, hj2, hj3⟩ := evapLoop_some_truncate g m k 0 g2 h
    have hjlt : j < init_cell g := by omega
    have hlen : init_cell g < g.length := init_cell_lt_length g hne
    have hjlen : j < g.length := Nat.lt_trans hjlt hlen
    have h0j : (g.getD 0 default).r ≤ (g.getD j default).r :=
      pairwise_r_getD hsorted (by omega) hjlen
    refine ⟨⟨j, hj1, by omega, hj3⟩, ?_, ?_, ?_⟩
    · rw [hj3, truncate_disk, List.length_map]
    · rw [hj3, truncate_disk]
      simpa using hne
    · rw [hj3]
      exact truncate_getD_zero g _ _ hne (not_lt.mpr h0j)

/-- Witness for `evaporate_retains_innermost_cell` on a concrete grid where
`evaporate` succeeds, truncating at the middle cell. -/
theorem evaporate_retains_innermost_cell_witness :
    (List.Pairwise (fun a b : Cell => a.r ≤ b.r)
        [⟨1, 1, 2⟩, ⟨2, 1, 1⟩, ⟨3, 1, 1⟩] ∧
      evaporate [⟨1, 1, 2⟩, ⟨2, 1, 1⟩, ⟨3, 1, 1⟩] (mkRat 1 100000000000) =
        some (truncate_disk [⟨1, 1, 2⟩, ⟨2, 1, 1⟩, ⟨3, 1, 1⟩] 2
          truncation_density)) ∧
    ((∃ j, 1 ≤ j ∧ j < init_cell [⟨1, 1, 2⟩, ⟨2, 1, 1⟩, ⟨3, 1, 1⟩] ∧
      truncate_disk [⟨1, 1, 2⟩, ⟨2, 1, 1⟩, ⟨3, 1, 1⟩] 2 truncation_density =
        truncate_disk [⟨1, 1, 2⟩, ⟨2, 1, 1⟩, ⟨3, 1, 1⟩]
          (([⟨1, 1, 2⟩, ⟨2, 1, 1⟩, ⟨3, 1, 1⟩] : DiskGrid).getD j default).r
          truncation_density) ∧
    (truncate_disk [⟨1, 1, 2⟩, ⟨2, 1, 1⟩, ⟨3, 1, 1⟩] 2
        truncation_density).length =
      ([⟨1, 1, 2⟩, ⟨2, 1, 1⟩, ⟨3, 1, 1⟩] : DiskGrid).length ∧
    truncate_disk [⟨1, 1, 2⟩, ⟨2, 1, 1⟩, ⟨3, 1, 1⟩] 2 truncation_density ≠
      [] ∧
    (truncate_disk [⟨1, 1, 2⟩, ⟨2, 1, 1⟩, ⟨3, 1, 1⟩] 2
        truncation_density).getD 0 default =
      ([⟨1, 1, 2⟩, ⟨2, 1, 1⟩, ⟨3, 1, 1⟩] : DiskGrid).getD 0 default) :=
  have hev : evaporate [⟨1, 1, 2⟩, ⟨2, 1, 1⟩, ⟨3, 1, 1⟩] (mkRat 1 100000000000) =
      some (truncate_disk [⟨1, 1, 2⟩, ⟨2, 1, 1⟩, ⟨3, 1, 1⟩] 2
        truncation_density) := by
    have hic : init_cell [⟨1, 1, 2⟩, ⟨2, 1, 1⟩, ⟨3, 1, 1⟩] = 2 := by
      with_unfolding_all decide
    rw [evaporate, hic]
    show evapLoop _ _ 1 0 = _
    rw [evapLoop, if_neg (by with_unfolding_all decide)]
    rfl
  ⟨⟨by decide, hev⟩,
    evaporate_retains_innermost_cell _ (mkRat 1 100000000000) _ (by decide) hev⟩

/-- The `value_below` of `find_indices`: the largest column element strictly
below `val` (`column[column < val].max()`); when no element lies below, the
`ValueError` handler falls back to `column.min()` (junk `0` on an empty
column, where the Python code would raise). -/
def value_below (column : List ℚ) (val : ℚ) : ℚ :=
  match (column.filter (fun x => x < val)).max? with
  | some m => m
  | none => column.min?.getD 0

/-- The `value_above` of `find_indices`: the smallest column element strictly
above `val`, falling back to `column.max()` when none exists. -/
def value_above (column : List ℚ) (val : ℚ) : ℚ :=
  match (column.filter (fun x => val < x)).min? with
  | some m => m
  | none => column.max?.getD 0

/-- `find_indices(column, val)` from the source: the pair of first indices of
`value_below` and `value_above` in the column
(`numpy.where(column == value)[0][0]`). -/
def find_indices (column : List ℚ) (val : ℚ) : Nat × Nat :=
  (column.findIdx (fun x => x == value_below column val),
   column.findIdx (fun x => x == value_above column val))

theorem q_min?_le {l : List ℚ} {a b : ℚ} (h : l.min? = some a) (hb : b ∈ l) :
    a ≤ b :=
  (List.le_min?_iff (fun _ _ _ => le_min_iff) h).mp (le_refl a) b hb

theorem q_le_max? {l : List ℚ} {a b : ℚ} (h : l.max? = some a) (hb : b ∈ l) :
    b ≤ a :=
  (List.max?_le_iff (fun _ _ _ => max_le_iff) h).mp (le_refl a) b hb

theorem value_below_mem_le (column : List ℚ) (val : ℚ) (hv : val ∈ column) :
    value_below column val ∈ column ∧ value_below column val ≤ val := by
  rw [value_below]
  rcases hb : (column.filter (fun x => x < val)).max? with _ | m
  · rcases hm : column.min? with _ | m0
    · rw [List.min?_eq_none_iff] at hm
      exact absurd hm (List.ne_nil_of_mem hv)
    · simp only [Option.getD_some]
      exact ⟨List.min?_mem min_choice hm, q_min?_le hm hv⟩
  · have hmem := List.max?_mem max_choice hb
    rw [List.mem_filter] at hmem
    exact ⟨hmem.1, le_of_lt (by simpa using hmem.2)⟩

theorem value_above_mem_ge (column : List ℚ) (val : ℚ) (hv : val ∈ column) :
    value_above column val ∈ column ∧ val ≤ value_above column val := by
  rw [value_above]
  rcases hb : (column.filter (fun x => val < x)).min? with _ | m
  · rcases hm : column.max? with _ | m0
    · rw [List.max?_eq_none_iff] at hm
      exact absurd hm (List.ne_nil_of_mem hv)
    · simp only [Option.getD_some]
      exact ⟨List.max?_mem max_choice hm, q_le_max? hm hv⟩
  · have hmem := List.min?_mem min_choice hb
    rw [List.mem_filter] at hmem
    exact ⟨hmem.1, le_of_lt (by simpa using hmem.2)⟩

theorem value_below_of_min (column : List ℚ) (val : ℚ)
    (hm : column.min? = some val) : value_below column val = val := by
  have hempty : column.filter (fun x => x < val) = [] := by
    rw [List.filter_eq_nil_iff]
    intro a ha
    simpa using not_lt.mpr (q_min?_le hm ha)
  rw [value_below, hempty]
  simp [hm]

theorem value_above_of_max (column : List ℚ) (val : ℚ)
    (hm : column.max? = some val) : value_above column val = val := by
  have hempty : column.filter (fun x => val < x) = [] := by
    rw [List.filter_eq_nil_iff]
    intro a ha
    simpa using not_lt.mpr (q_le_max? hm ha)
  rw [value_above, hempty]
  simp [hm]

theorem findIdx_beq_lt_length {l : List ℚ} {v : ℚ} (hv : v ∈ l) :
    l.findIdx (fun x => x == v) < l.length := by
  rw [List.findIdx_lt_length]
  exact ⟨v, hv, by simp⟩

theorem findIdx_beq_getD {l : List ℚ} {v : ℚ} (hv : v ∈ l) :
    l.getD (l.findIdx (fun x => x == v)) 0 = v := by
  have h := findIdx_getD_holds 0 (fun x => x == v) l (findIdx_beq_lt_length hv)
  simpa using h

/-- C4 (amended): for a query value equal to some row's value, `find_indices`
returns defined in-range indices (no exception, no NaN) whose column values
bracket the query (`column[i] ≤ val ≤ column[j]`); the indices resolve to the
exact-match row only at the column extrema — when the query equals the column
minimum the below index resolves to it, and when it equals the column maximum
the above index resolves to it.  An interior exact match is bracketed by the
strictly-smaller and strictly-greater neighbours instead (see
`find_indices_exact_interior_not_same_row`). -/
theorem find_indices_exact_match_brackets (column : List ℚ) (val : ℚ)
    (hv : val ∈ column) :
    (find_indices column val).1 < column.length ∧
    (find_indices column val).2 < column.length ∧
    column.getD (find_indices column val).1 0 ≤ val ∧
    val ≤ column.getD (find_indices column val).2 0 ∧
    (column.min? = some val →
      column.getD (find_indices column val).1 0 = val) ∧
    (column.max? = some val →
      column.getD (find_indices column val).2 0 = val) := by
  obtain ⟨hbm, hbl⟩ := value_below_mem_le column val hv
  obtain ⟨ham, hag⟩ := value_above_mem_ge column val hv
  refine ⟨findIdx_beq_lt_length hbm, findIdx_beq_lt_length ham, ?_, ?_, ?_, ?_⟩
  · rw [show (find_indices column val).1 =
      column.findIdx (fun x => x == value_below column val) from rfl]
    rw [findIdx_beq_getD hbm]
    exact hbl
  · rw [show (find_indices column val).2 =
      column.findIdx (fun x => x == value_above column val) from rfl]
    rw [findIdx_beq_getD ham]
    exact hag
  · intro hm
    rw [show (find_indices column val).1 =
      column.findIdx (fun x => x == value_below column val) from rfl]
    rw [findIdx_beq_getD hbm, value_below_of_min column val hm]
  · intro hm
    rw [show (find_indices column val).2 =
      column.findIdx (fun x => x == value_above column val) from rfl]
    rw [findIdx_beq_getD ham, value_above_of_max column val hm]

/-- Witness for `find_indices_exact_match_brackets` on a concrete column with
the query equal to the column minimum. -/
theorem find_indices_exact_match_brackets_witness :
    ((1 : ℚ) ∈ [(1 : ℚ), 2, 3]) ∧
    ((find_indices [(1 : ℚ), 2, 3] 1).1 < ([(1 : ℚ), 2, 3] : List ℚ).length ∧
    (find_indices [(1 : ℚ), 2, 3] 1).2 < ([(1 : ℚ), 2, 3] : List ℚ).length ∧
    ([(1 : ℚ), 2, 3] : List ℚ).getD (find_indices [(1 : ℚ), 2, 3] 1).1 0 ≤ 1 ∧
    (1 : ℚ) ≤ ([(1 : ℚ), 2, 3] : List ℚ).getD
      (find_indices [(1 : ℚ), 2, 3] 1).2 0 ∧
    (([(1 : ℚ), 2, 3] : List ℚ).min? = some 1 →
      ([(1 : ℚ), 2, 3] : List ℚ).getD (find_indices [(1 : ℚ), 2, 3] 1).1 0 =
        1) ∧
    (([(1 : ℚ), 2, 3] : List ℚ).max? = some 1 →
      ([(1 : ℚ), 2, 3] : List ℚ).getD (find_indices [(1 : ℚ), 2, 3] 1).2 0 =
        1)) :=
  ⟨by decide, find_indices_exact_match_brackets _ _ (by decide)⟩

/-- Counterexample for C4 as stated: on the column `[1, 2, 3]` with query
`2` — a value exactly equal to row 1 — `find_indices` returns `(0, 2)`,
whose rows hold `1` and `3`: neither the below nor the above index resolves
to the matching row. -/
theorem find_indices_exact_interior_not_same_row :
    find_indices [(1 : ℚ), 2, 3] 2 = (0, 2) ∧ (2 : ℚ) ∈ [(1 : ℚ), 2, 3] ∧
      ([(1 : ℚ), 2, 3] : List ℚ).getD 0 0 ≠ 2 ∧
      ([(1 : ℚ), 2, 3] : List ℚ).getD 2 0 ≠ 2 := by
  refine ⟨by decide, by decide, by decide, by decide⟩

/-- `luminosity_fit(mass)` from the source (mass in MSun, result in LSun):
a piecewise power-law fit in which every interval is bounded by strict
inequalities, with an `else` branch returning `0 | units.LSun`. -/
noncomputable def luminosity_fit (mass : ℚ) : ℝ :=
  if 0.12 < mass ∧ mass < 0.24 then 1.70294e16 * (mass : ℝ) ^ (42.557 : ℝ)
  else if 0.24 < mass ∧ mass < 0.56 then 9.11137e-9 * (mass : ℝ) ^ (3.8845 : ℝ)
  else if 0.56 < mass ∧ mass < 0.70 then 1.10021e-6 * (mass : ℝ) ^ (12.237 : ℝ)
  else if 0.70 < mass ∧ mass < 0.91 then 2.38690e-4 * (mass : ℝ) ^ (27.199 : ℝ)
  else if 0.91 < mass ∧ mass < 1.37 then 1.02477e-4 * (mass : ℝ) ^ (18.465 : ℝ)
  else if 1.37 < mass ∧ mass < 2.07 then 9.66362e-4 * (mass : ℝ) ^ (11.410 : ℝ)
  else if 2.07 < mass ∧ mass < 3.72 then 6.49335e-2 * (mass : ℝ) ^ (5.6147 : ℝ)
  else if 3.72 < mass ∧ mass < 10.0 then 6.99075e-1 * (mass : ℝ) ^ (3.8058 : ℝ)
  else if 10.0 < mass ∧ mass < 20.2 then 9.73664e0 * (mass : ℝ) ^ (2.6620 : ℝ)
  else if 20.2 < mass then 1.31175e2 * (mass : ℝ) ^ (1.7974 : ℝ)
  else 0

/-- C10: for every stellar mass exactly on a boundary of the piecewise fit,
and for every mass at or below 0.12 MSun, `luminosity_fit` returns 0 LSun,
because every fit interval is bounded by strict inequalities; a bright star
whose mass lands exactly on a boundary therefore contributes zero FUV
luminosity. -/
theorem luminosity_fit_boundaries_zero (m : ℚ)
    (h : m ∈ ([0.12, 0.24, 0.56, 0.70, 0.91, 1.37, 2.07, 3.72, 10.0, 20.2] :
        List ℚ) ∨ m ≤ 0.12) :
    luminosity_fit m = 0 := by
  rcases h with hmem | hle
  · fin_cases hmem <;> norm_num [luminosity_fit]
  · rw [luminosity_fit,
      if_neg (fun hc => absurd (hc.1) (not_lt.mpr hle)),
      if_neg (fun hc => absurd (hc.1)
        (not_lt.mpr (le_trans hle (by norm_num)))),
      if_neg (fun hc => absurd (hc.1)
        (not_lt.mpr (le_trans hle (by norm_num)))),
      if_neg (fun hc => absurd (hc.1)
        (not_lt.mpr (le_trans hle (by norm_num)))),
      if_neg (fun hc => absurd (hc.1)
        (not_lt.mpr (le_trans hle (by norm_num)))),
      if_neg (fun hc => absurd (hc.1)
        (not_lt.mpr (le_trans hle (by norm_num)))),
      if_neg (fun hc => absurd (hc.1)
        (not_lt.mpr (le_trans hle (by norm_num)))),
      if_neg (fun hc => absurd (hc.1)
        (not_lt.mpr (le_trans hle (by norm_num)))),
      if_neg (fun hc => absurd (hc.1)
        (not_lt.mpr (le_trans hle (by norm_num)))),
      if_neg (not_lt.mpr (le_trans hle (by norm_num)))]

/-- Witness for `luminosity_fit_boundaries_zero` at the boundary mass
20.2 MSun. -/
theorem luminosity_fit_boundaries_zero_witness :
    ((20.2 : ℚ) ∈ ([0.12, 0.24, 0.56, 0.70, 0.91, 1.37, 2.07, 3.72, 10.0,
        20.2] : List ℚ) ∨ (20.2 : ℚ) ≤ 0.12) ∧
      luminosity_fit 20.2 = 0 :=
  ⟨Or.inl (by norm_num), luminosity_fit_boundaries_zero _ (Or.inl (by norm_num))⟩

/-- A Disk Registry operation: `register` appends a disk code to
`disk_codes` and stores `disk_codes_indices[key] = len(disk_codes) - 1`;
`retire` performs the deletion block that appears at every retirement site of
`main` (supernova destruction, truncation dispersal, solver divergence,
density-threshold dispersal, photoevaporation dispersal). -/
inductive RegOp where
  | register (key : Nat)
  | retire (key : Nat)
deriving DecidableEq, Repr

/-- The Disk Registry: the association list mirroring the insertion-ordered
Python dict `disk_codes_indices` as (key, index) pairs, together with the
length of the `disk_codes` list (which the `active_disks` counter of `main`
tracks). -/
structure Registry where
  entries : List (Nat × Nat)
  count : Nat
deriving DecidableEq, Repr

def registry_empty : Registry := ⟨[], 0⟩

/-- Python dict lookup `disk_codes_indices[key]` on the insertion-ordered
entry list (`none` models `KeyError`). -/
def dictLookup (es : List (Nat × Nat)) (k : Nat) : Option Nat :=
  match es with
  | [] => none
  | e :: rest => if e.1 = k then some e.2 else dictLookup rest k

/-- Python dict assignment `d[key] = v`: overwrite in place when the key
exists, else append in insertion order. -/
def dictSet (es : List (Nat × Nat)) (k v : Nat) : List (Nat × Nat) :=
  if (dictLookup es k).isSome then
    es.map (fun e => if e.1 = k then (k, v) else e)
  else es ++ [(k, v)]

/-- `register`: `disk_codes.append(s_code);
disk_codes_indices[s.key] = len(disk_codes) - 1`. -/
def registerDisk (st : Registry) (k : Nat) : Registry :=
  ⟨dictSet st.entries k st.count, st.count + 1⟩

/-- `retire`: `to_del = disk_codes_indices[key]; del disk_codes[to_del];
for i in disk_codes_indices: if disk_codes_indices[i] > to_del:
disk_codes_indices[i] -= 1; del disk_codes_indices[key];
active_disks -= 1`.  A missing key raises `KeyError` (`none`). -/
def retireDisk (st : Registry) (k : Nat) : Option Registry :=
  match dictLookup st.entries k with
  | none => none
  | some to_del =>
    some ⟨(st.entries.map
        (fun e => if to_del < e.2 then (e.1, e.2 - 1) else e)).filter
        (fun e => !(e.1 == k)),
      st.count - 1⟩

def applyOp (st : Registry) : RegOp → Registry
  | .register k => registerDisk st k
  | .retire k => (retireDisk st k).getD st

def applyOps (st : Registry) (ops : List RegOp) : Registry :=
  ops.foldl applyOp st

/-- The call discipline of `main`: every registered key is fresh (AMUSE star
keys are unique), and a retire of a missing key (which would raise
`KeyError`) never occurs — modelled here by leaving the registry unchanged
and, in `validFrom`, not constraining retires. -/
def validFrom (st : Registry) : List RegOp → Bool
  | [] => true
  | op :: rest =>
    (match op with
     | .register k => (dictLookup st.entries k).isNone
     | .retire _ => true) && validFrom (applyOp st op) rest

/-- The Disk Registry invariant of the claim: the star-key-to-index mapping
is injective (no duplicate key, no duplicate index) and its image is exactly
{0 .. count - 1}, dense with no hole. -/
def RegistryInv (st : Registry) : Prop :=
  (st.entries.map Prod.fst).Nodup ∧
  (st.entries.map Prod.snd).Perm (List.range st.count)

theorem dictLookup_none_iff (es : List (Nat × Nat)) (k : Nat) :
    dictLookup es k = none ↔ k ∉ es.map Prod.fst := by
  induction es with
  | nil => simp [dictLookup]
  | cons e rest ih =>
    by_cases he : e.1 = k
    · simp [dictLookup, he]
    · simp [dictLookup, he, ih, Ne.symm he]

theorem dictSet_absent {es : List (Nat × Nat)} {k : Nat} (v : Nat)
    (h : dictLookup es k = none) : dictSet es k v = es ++ [(k, v)] := by
  rw [dictSet, if_neg]
  simp [h]

theorem dictLookup_mem_snd :
    ∀ (es : List (Nat × Nat)) (k j : Nat), dictLookup es k = some j →
      j ∈ es.map Prod.snd := by
  intro es
  induction es with
  | nil => intro k j h; exact absurd h (by simp [dictLookup])
  | cons e rest ih =>
    intro k j h
    rw [dictLookup] at h
    by_cases he : e.1 = k
    · rw [if_pos he] at h
      simp only [Option.some.injEq] at h
      simp [← h]
    · rw [if_neg he] at h
      simpa using Or.inr (ih k j h)

theorem registerDisk_inv {st : Registry} {k : Nat} (hinv : RegistryInv st)
    (hfresh : dictLookup st.entries k = none) :
    RegistryInv (registerDisk st k) := by
  obtain ⟨hnd, hperm⟩ := hinv
  rw [RegistryInv, registerDisk]
  rw [dictSet_absent st.count hfresh]
  constructor
  · simp only [List.map_append, List.map_cons, List.map_nil]
    rw [List.nodup_append]
    refine ⟨hnd, List.nodup_singleton _, ?_⟩
    intro a ha
    simp only [List.mem_singleton]
    intro hak
    rw [hak] at ha
    exact (dictLookup_none_iff st.entries k).mp hfresh ha
  · simp only [List.map_append, List.map_cons, List.map_nil]
    rw [List.range_succ]
    exact hperm.append (List.Perm.refl _)

theorem range_erase_map_dec (j n : Nat) (hj : j < n) :
    ((List.range n).erase j).map (fun i => if j < i then i - 1 else i) =
      List.range (n - 1) := by
  induction n with
  | zero => omega
  | succ n ih =>
    rw [List.range_succ]
    by_cases hjn : j = n
    · subst hjn
      rw [List.erase_append_right _ (by simp [List.mem_range])]
      rw [List.erase_cons_head, List.append_nil]
      rw [Nat.add_sub_cancel]
      refine List.map_congr_left ?_ |>.trans (List.map_id _)
      intro i hi
      rw [List.mem_range] at hi
      rw [if_neg (by omega)]
      rfl
    · have hjn' : j < n := by omega
      rw [List.erase_append_left _ (by simpa [List.mem_range] using hjn')]
      rw [List.map_append, ih hjn']
      have hmap : ([n].map (fun i => if j < i then i - 1 else i)) = [n - 1] := by
        simp [if_pos hjn']
      rw [hmap, ← List.range_succ]
      congr 1
      omega

theorem retire_entries_perm (k : Nat) :
    ∀ (es : List (Nat × Nat)) (j : Nat),
      (es.map Prod.fst).Nodup →
      (es.map Prod.snd).Nodup →
      dictLookup es k = some j →
      (((es.map (fun e => if j < e.2 then (e.1, e.2 - 1) else e)).filter
          (fun e => !(e.1 == k))).map Prod.snd).Perm
        (((es.map Prod.snd).erase j).map
          (fun i => if j < i then i - 1 else i)) := by
  intro es
  induction es with
  | nil => intro j _ _ h; exact absurd h (by simp [dictLookup])
  | cons e rest ih =>
    intro j hknd hsnd h
    simp only [List.map_cons, List.nodup_cons] at hknd hsnd
    rw [dictLookup] at h
    by_cases he : e.1 = k
    · rw [if_pos he] at h
      simp only [Option.some.injEq] at h
      have hkrest : ∀ x ∈ rest.map
          (fun e => if j < e.2 then (e.1, e.2 - 1) else e), !(x.1 == k) := by
        intro x hx
        rcases List.mem_map.mp hx with ⟨y, hy, rfl⟩
        have hy1 : y.1 ∈ rest.map Prod.fst := List.mem_map_of_mem _ hy
        have hne : y.1 ≠ k := by
          intro hcontra
          apply hknd.1
          rw [he, ← hcontra]
          exact hy1
        by_cases hc : j < y.2 <;> simp [hc, hne]
      rw [List.map_cons, List.filter_cons]
      have hfe : (!((if j < e.2 then (e.1, e.2 - 1) else e).1 == k)) = false := by
        by_cases hc : j < e.2 <;> simp [hc, he]
      rw [hfe]
      simp only [Bool.false_eq_true, if_false]
      rw [List.filter_eq_self.mpr hkrest]
      simp only [List.map_cons]
      rw [h, List.erase_cons_head]
      have : (rest.map (fun e => if j < e.2 then (e.1, e.2 - 1) else e)).map
          Prod.snd = (rest.map Prod.snd).map
          (fun i => if j < i then i - 1 else i) := by
        rw [List.map_map, List.map_map]
        refine List.map_congr_left ?_
        intro x _
        by_cases hc : j < x.2 <;> simp [hc]
      rw [this]
    · rw [if_neg he] at h
      have hjmem : j ∈ rest.map Prod.snd := dictLookup_mem_snd rest k j h
      have hej : e.2 ≠ j := by
        intro hcontra
        rw [hcontra] at hsnd
        exact hsnd.1 hjmem
      rw [List.map_cons, List.filter_cons]
      have hfe : (!((if j < e.2 then (e.1, e.2 - 1) else e).1 == k)) = true := by
        by_cases hc : j < e.2 <;> simp [hc, he]
      rw [hfe]
      simp only [if_true, List.map_cons]
      rw [List.erase_cons_tail (by simpa using hej), List.map_cons]
      have hhead : (if j < e.2 then (e.1, e.2 - 1) else e).2 =
          (if j < e.2 then e.2 - 1 else e.2) := by
        by_cases hc : j < e.2 <;> simp [hc]
      rw [hhead]
      exact (ih j hknd.2 hsnd.2 h).cons _

theorem retireDisk_inv {st : Registry} (k : Nat) (hinv : RegistryInv st) :
    RegistryInv ((retireDisk st k).getD st) := by
  obtain ⟨hknd, hperm⟩ := hinv
  rcases hl : dictLookup st.entries k with _ | j
  · rw [retireDisk, hl]
    exact ⟨hknd, hperm⟩
  · rw [retireDisk, hl, Option.getD_some]
    have hsndnd : (st.entries.map Prod.snd).Nodup :=
      hperm.symm.nodup (List.nodup_range _)
    have hjmem : j ∈ st.entries.map Prod.snd :=
      dictLookup_mem_snd st.entries k j hl
    have hjlt : j < st.count := by
      have := hperm.mem_iff.mp hjmem
      simpa [List.mem_range] using this
    constructor
    · have hkeys : ((st.entries.map
          (fun e => if j < e.2 then (e.1, e.2 - 1) else e)).filter
          (fun e => !(e.1 == k))).map Prod.fst |>.Sublist
          (st.entries.map Prod.fst) := by
        have h1 : ((st.entries.map
            (fun e => if j < e.2 then (e.1, e.2 - 1) else e)).filter
            (fun e => !(e.1 == k))).Sublist
            (st.entries.map (fun e => if j < e.2 then (e.1, e.2 - 1) else e)) :=
          List.filter_sublist _
        have h2 := h1.map Prod.fst
        have h3 : (st.entries.map
            (fun e => if j < e.2 then (e.1, e.2 - 1) else e)).map Prod.fst =
            st.entries.map Prod.fst := by
          rw [List.map_map]
          refine List.map_congr_left ?_
          intro x _
          by_cases hc : j < x.2 <;> simp [hc]
        rw [h3] at h2
        exact h2
      exact hknd.sublist hkeys
    · have h1 := retire_entries_perm k st.entries j hknd hsndnd hl
      have h2 : ((st.entries.map Prod.snd).erase j).Perm
          ((List.range st.count).erase j) := hperm.erase j
      have h3 := h2.map (fun i => if j < i then i - 1 else i)
      rw [range_erase_map_dec j st.count hjlt] at h3
      exact h1.trans h3

theorem registry_invariant_steps :
    ∀ (ops : List RegOp) (st : Registry), RegistryInv st →
      validFrom st ops = true → RegistryInv (applyOps st ops) := by
  intro ops
  induction ops with
  | nil => intro st h _; simpa [applyOps] using h
  | cons op rest ih =>
    intro st h hv
    rcases op with k | k
    · simp only [validFrom, Bool.and_eq_true] at hv
      rw [applyOps, List.foldl_cons]
      exact ih _
        (registerDisk_inv h (by simpa [Option.isNone_iff_eq_none] using hv.1))
        hv.2
    · simp only [validFrom, Bool.and_eq_true] at hv
      rw [applyOps, List.foldl_cons]
      exact ih _ (retireDisk_inv k h) hv.2

/-- C3: after any valid sequence of register and retire operations starting
from the empty Disk Registry — retirement sites being supernova destruction,
truncation dispersal, solver divergence, density-threshold dispersal and
photoevaporation dispersal, all of which execute the same deletion block
(remove the entry at index `to_del`, decrement every stored index greater
than `to_del`, decrement the counter) — the star-key-to-index mapping is
injective and its image is exactly {0 .. active_count - 1}, with no
duplicate or missing index. -/
theorem registry_dense_invariant (ops : List RegOp)
    (h : validFrom registry_empty ops = true) :
    RegistryInv (applyOps registry_empty ops) :=
  registry_invariant_steps ops registry_empty
    ⟨by simp [registry_empty], by simp [registry_empty]⟩ h

/-- Witness for `registry_dense_invariant` on a concrete operation sequence
with interleaved registrations and retirements. -/
theorem registry_dense_invariant_witness :
    (validFrom registry_empty
        [RegOp.register 5, RegOp.register 8, RegOp.register 3,
          RegOp.retire 8, RegOp.register 8, RegOp.retire 5] = true) ∧
      RegistryInv (applyOps registry_empty
        [RegOp.register 5, RegOp.register 8, RegOp.register 3,
          RegOp.retire 8, RegOp.register 8, RegOp.retire 5]) :=
  ⟨by decide, registry_dense_invariant _ (by decide)⟩

/-- The star-record fields touched by the photoevaporation block of `main`.
Masses carry the units the source uses at this point: `disk_mass`,
`initial_disk_mass` and the accumulators in MJupiter (as produced by
`get_disk_mass` and the initializations), while the per-step loss argument is
in MSun. -/
structure PStar where
  key : Nat
  disk_radius : ℚ
  disk_mass : ℚ
  initial_disk_mass : ℚ
  photoevap_mass_loss : ℚ
  cumulative_photoevap_mass_loss : ℚ
  dispersed : Bool
  checked : Bool
  code : Bool
  dispersal_time : ℚ
deriving DecidableEq, Repr

/-- AMUSE conversion 1 MSun = 1047.57 MJupiter, applied implicitly when the
MSun-valued step loss is stored into the MJupiter-valued accumulators. -/
def mSun_in_MJup : ℚ := mkRat 104757 100

/-- The fixed retirement floor `0.03 | units.MEarth` (Ansdell+2016) expressed
in MJupiter (1 MEarth = 3.1464e-3 MJupiter): 9.4392e-5 MJupiter. -/
def min_disk_mass_MJup : ℚ := mkRat 94392 1000000000

/-- The retirement block shared by both photoevaporation dispersal sites of
`main`: zero the disk fields, set `dispersed`/`checked`, clear `code`, record
the dispersal time, stop and delete the disk code, and run the registry
deletion block.  `called` records whether `evaporate` had been called. -/
def retirePhotoevap (ss : PStar) (reg : Registry) (disks : List DiskGrid)
    (t : ℚ) (called : Bool) : PStar × Registry × List DiskGrid × Bool :=
  ({ ss with
     disk_radius := 0, disk_mass := 0, dispersed := true,
     checked := true, code := false, dispersal_time := t },
    (retireDisk reg ss.key).getD reg,
    disks.eraseIdx ((dictLookup reg.entries ss.key).getD 0), called)

/-- The decision part of the photoevaporation block, applied to the star with
its accumulators already updated: if the cumulative loss has reached the
initial disk mass, or the current disk mass is below the fixed floor, retire
without calling `evaporate`; otherwise call `evaporate` with the step loss
(in MSun) and either adopt the returned disk (updating radius and mass from
it) or retire. -/
def photoevapCheck (ss : PStar) (total_photoevap_mass_loss : ℚ)
    (reg : Registry) (disks : List DiskGrid) (t : ℚ) :
    PStar × Registry × List DiskGrid × Bool :=
  if ss.initial_disk_mass ≤ ss.cumulative_photoevap_mass_loss ∨
      ss.disk_mass < min_disk_mass_MJup then
    retirePhotoevap ss reg disks t false
  else
    match evaporate (disks.getD ((dictLookup reg.entries ss.key).getD 0) [])
        total_photoevap_mass_loss with
    | some d2 =>
      ({ ss with
          disk_radius := get_disk_radius d2 density_floor_default,
          disk_mass :=
            get_disk_mass d2 (get_disk_radius d2 density_floor_default) },
        reg, disks.set ((dictLookup reg.entries ss.key).getD 0) d2, true)
    | none => retirePhotoevap ss reg disks t true

/-- One star's pass through the photoevaporation block of `main`: store this
step's EUV+FUV loss, add it to the cumulative accumulator, then run the
retirement checks and (possibly) `evaporate`. -/
def photoevapStep (ss : PStar) (total_photoevap_mass_loss : ℚ)
    (reg : Registry) (disks : List DiskGrid) (t : ℚ) :
    PStar × Registry × List DiskGrid × Bool :=
  photoevapCheck
    { ss with
      photoevap_mass_loss := total_photoevap_mass_loss * mSun_in_MJup,
      cumulative_photoevap_mass_loss :=
        ss.cumulative_photoevap_mass_loss +
          total_photoevap_mass_loss * mSun_in_MJup }
    total_photoevap_mass_loss reg disks t

theorem filter_key_lookup_none (es : List (Nat × Nat)) (k : Nat) :
    dictLookup (es.filter (fun e => !(e.1 == k))) k = none := by
  rw [dictLookup_none_iff]
  intro hmem
  rcases List.mem_map.mp hmem with ⟨x, hx, hxk⟩
  have hpred := List.of_mem_filter hx
  rw [hxk] at hpred
  simp at hpred

theorem retireDisk_lookup_none (st : Registry) (k : Nat) :
    dictLookup ((retireDisk st k).getD st).entries k = none := by
  rcases hl : dictLookup st.entries k with _ | j
  · rw [retireDisk, hl]
    exact hl
  · rw [retireDisk, hl, Option.getD_some]
    exact filter_key_lookup_none _ k

/-- C5: in the photoevaporation pass, a non-dispersed disk-bearing star whose
cumulative photoevaporative mass loss — after adding this step's EUV plus FUV
loss — is at least its initial disk mass (equality included), or whose
current disk mass is below the fixed 0.03-MEarth floor, is retired: disk
radius and mass zeroed, `dispersed` set, its registry entry removed, and
`evaporate` is not called for it in this step. -/
theorem photoevap_retirement (ss : PStar) (loss t : ℚ) (reg : Registry)
    (disks : List DiskGrid)
    (hnd : ss.dispersed = false)
    (hkey : (dictLookup reg.entries ss.key).isSome = true)
    (hcond : ss.initial_disk_mass ≤
        ss.cumulative_photoevap_mass_loss + loss * mSun_in_MJup ∨
      ss.disk_mass < min_disk_mass_MJup) :
    (photoevapStep ss loss reg disks t).1.disk_radius = 0 ∧
    (photoevapStep ss loss reg disks t).1.disk_mass = 0 ∧
    (photoevapStep ss loss reg disks t).1.dispersed = true ∧
    dictLookup (photoevapStep ss loss reg disks t).2.1.entries ss.key =
      none ∧
    (photoevapStep ss loss reg disks t).2.2.2 = false := by
  rw [photoevapStep, photoevapCheck, if_pos (by simpa using hcond),
    retirePhotoevap]
  exact ⟨rfl, rfl, rfl, retireDisk_lookup_none reg ss.key, rfl⟩

/-- Witness for `photoevap_retirement`: cumulative loss pushed to equal the
initial disk mass exactly (scenario B of the spec) retires the disk without
calling `evaporate`. -/
theorem photoevap_retirement_witness :
    ((⟨7, 5, 1, 10, 0, 6, false, false, true, 0⟩ : PStar).dispersed = false ∧
      (dictLookup (⟨[(7, 0)], 1⟩ : Registry).entries
        (⟨7, 5, 1, 10, 0, 6, false, false, true, 0⟩ : PStar).key).isSome =
        true ∧
      ((⟨7, 5, 1, 10, 0, 6, false, false, true, 0⟩ :
          PStar).initial_disk_mass ≤
        (⟨7, 5, 1, 10, 0, 6, false, false, true, 0⟩ :
          PStar).cumulative_photoevap_mass_loss +
          mkRat 400 104757 * mSun_in_MJup ∨
      (⟨7, 5, 1, 10, 0, 6, false, false, true, 0⟩ : PStar).disk_mass <
        min_disk_mass_MJup)) ∧
    ((photoevapStep ⟨7, 5, 1, 10, 0, 6, false, false, true, 0⟩
        (mkRat 400 104757) ⟨[(7, 0)], 1⟩ [[⟨1, 1, 1⟩]] 3).1.disk_radius = 0 ∧
    (photoevapStep ⟨7, 5, 1, 10, 0, 6, false, false, true, 0⟩
        (mkRat 400 104757) ⟨[(7, 0)], 1⟩ [[⟨1, 1, 1⟩]] 3).1.disk_mass = 0 ∧
    (photoevapStep ⟨7, 5, 1, 10, 0, 6, false, false, true, 0⟩
        (mkRat 400 104757) ⟨[(7, 0)], 1⟩ [[⟨1, 1, 1⟩]] 3).1.dispersed =
      true ∧
    dictLookup (photoevapStep ⟨7, 5, 1, 10, 0, 6, false, false, true, 0⟩
        (mkRat 400 104757) ⟨[(7, 0)], 1⟩ [[⟨1, 1, 1⟩]] 3).2.1.entries
      (⟨7, 5, 1, 10, 0, 6, false, false, true, 0⟩ : PStar).key = none ∧
    (photoevapStep ⟨7, 5, 1, 10, 0, 6, false, false, true, 0⟩
        (mkRat 400 104757) ⟨[(7, 0)], 1⟩ [[⟨1, 1, 1⟩]] 3).2.2.2 = false) :=
  ⟨⟨by decide, by decide, by with_unfolding_all decide⟩,
    photoevap_retirement _ _ _ _ _ (by decide) (by decide)
      (by with_unfolding_all decide)⟩

/-- The star-record fields touched by the per-star body of
`resolve_encounter` (radii in au; `disk_mass` and the truncation-loss
accumulators in MJupiter; `stellar_mass` in MSun).  Real-valued because the
truncation radius carries the real power `(m_own/m_partner) ** 0.32`. -/
structure EncStar where
  stellar_mass : ℚ
  mass : ℝ
  disk_radius : ℝ
  disk_mass : ℝ
  dispersed : Bool
  encounters : Nat
  dispersal_time : ℝ
  truncation_mass_loss : ℝ
  cumulative_truncation_mass_loss : ℝ
  disk_size_np : ℝ
  disk_mass_np : ℝ

/-- AMUSE conversion 1 MJupiter = 9.5459e-4 MSun, applied implicitly when
the MJupiter-valued disk mass is added to the MSun-valued stellar mass. -/
noncomputable def MJup_in_MSun : ℝ := 9.5459e-4

/-- The `truncation_radius` of `resolve_encounter` (au):
`(closest_approach/3) * (own_mass/partner_mass) ** 0.32`. -/
noncomputable def truncation_radius (closest_approach : ℝ)
    (own_mass partner_mass : ℚ) : ℝ :=
  (closest_approach / 3) * ((own_mass : ℝ) / (partner_mass : ℝ)) ^ (0.32 : ℝ)

open scoped Classical in
/-- `get_disk_mass` as invoked from `resolve_encounter`, where the query
radius is the real-valued `stars[i].disk_radius` or truncation radius. -/
noncomputable def get_disk_massR (g : DiskGrid) (radius : ℝ) : ℝ :=
  ((g.take (g.countP (fun c => decide ((c.r : ℝ) ≤ radius)))).map
    (fun c => (c.column_density : ℝ) * (gcm2_to_MJup_au2 : ℝ) * (c.area : ℝ))).sum

open scoped Classical in
/-- `truncate_disk` as invoked from `resolve_encounter`, at a real-valued
truncation radius (default written density 1e-11 g/cm^2). -/
noncomputable def truncate_diskR (g : DiskGrid) (new_radius : ℝ)
    (density_limit : ℚ) : DiskGrid :=
  g.map (fun c =>
    if new_radius < (c.r : ℝ) then { c with column_density := density_limit }
    else c)

open scoped Classical in
/-- The per-star body of `resolve_encounter` (the `for i in range(2)` loop):
given the star, its partner's stellar mass, the closest approach and the
encounter time, plus the star's disk code (`none` for a bright star).
Returns the updated star record, the disk code appended to `new_codes`, and
whether this star set the `truncated` flag.  The dispersal branch mirrors
the source's statement order: the disk mass is zeroed **before**
`truncation_mass_loss = stars[i].disk_mass` reads it back. -/
noncomputable def resolve_encounter_star (star : EncStar) (partner_mass : ℚ)
    (closest_approach time : ℝ) (code : Option DiskGrid) :
    EncStar × Option DiskGrid × Bool :=
  match code with
  | none => (star, none, false)
  | some g =>
    let tr := truncation_radius closest_approach star.stellar_mass partner_mass
    let res :=
      if tr < star.disk_radius then
        let starE := { star with encounters := star.encounters + 1 }
        if tr ≤ 0.5 then
          let s1 := { starE with
            dispersed := true, disk_radius := tr, disk_mass := 0,
            dispersal_time := time }
          let s2 := { s1 with
            truncation_mass_loss := s1.disk_mass,
            cumulative_truncation_mass_loss :=
              s1.cumulative_truncation_mass_loss + s1.disk_mass }
          (s2, some g, true)
        else
          let old_mass := get_disk_massR g starE.disk_radius
          let new_disk := truncate_diskR g tr truncation_density
          let new_mass := get_disk_massR new_disk tr
          ({ starE with
             truncation_mass_loss := old_mass - new_mass,
             cumulative_truncation_mass_loss :=
               starE.cumulative_truncation_mass_loss + (old_mass - new_mass),
             disk_mass := new_mass,
             mass := (starE.stellar_mass : ℝ) + new_mass * MJup_in_MSun },
            some new_disk, true)
      else (star, some g, false)
    let star2 :=
      if tr < res.1.disk_size_np then
        { res.1 with
          disk_size_np := tr,
          disk_mass_np := res.1.disk_mass_np * 1.6 }
      else res.1
    (star2, res.2.1, res.2.2)

/-- C1 (evaluation at the failing input, for the reported code bug): in the
dispersal branch of `resolve_encounter` (truncation radius 0.4 au, at most
0.5 au and below the 10 au disk radius), the code zeroes `disk_mass` first
and only then assigns `truncation_mass_loss = stars[i].disk_mass`, so a disk
of 50 MJupiter is dispersed while the recorded step loss and the cumulative
truncation loss stay 0 — and `disk_radius` is left at the 0.4 au truncation
radius rather than being zeroed. -/
theorem resolve_encounter_dispersal_records_zero_loss :
    (resolve_encounter_star ⟨1, 51, 10, 50, false, 0, 0, 0, 0, 100, 60⟩ 1
        (6/5 : ℝ) 3 (some [⟨1, 1, 1⟩])).1.truncation_mass_loss = 0 ∧
    (resolve_encounter_star ⟨1, 51, 10, 50, false, 0, 0, 0, 0, 100, 60⟩ 1
        (6/5 : ℝ) 3 (some [⟨1, 1, 1⟩])).1.cumulative_truncation_mass_loss =
      0 ∧
    (resolve_encounter_star ⟨1, 51, 10, 50, false, 0, 0, 0, 0, 100, 60⟩ 1
        (6/5 : ℝ) 3 (some [⟨1, 1, 1⟩])).1.disk_radius = (2/5 : ℝ) ∧
    (resolve_encounter_star ⟨1, 51, 10, 50, false, 0, 0, 0, 0, 100, 60⟩ 1
        (6/5 : ℝ) 3 (some [⟨1, 1, 1⟩])).1.dispersed = true ∧
    (⟨1, 51, 10, 50, false, 0, 0, 0, 0, 100, 60⟩ : EncStar).disk_mass = 50 ∧
    (2/5 : ℝ) ≠ 0 := by
  have htr : truncation_radius (6/5 : ℝ) 1 1 = (2/5 : ℝ) := by
    rw [truncation_radius,
      show (((1 : ℚ) : ℝ) / ((1 : ℚ) : ℝ)) = (1 : ℝ) by norm_num,
      Real.one_rpow]
    norm_num
  refine ⟨?_, ?_, ?_, ?_, rfl, by norm_num⟩ <;>
  · simp only [resolve_encounter_star, htr]
    norm_num

/-- A bright (ionizing) star in the radiation pass of `main`: position (in
cm, as consumed by `distance(...).value_in(units.cm)`) and stellar mass in
MSun. -/
structure BrightStar where
  x : ℝ
  y : ℝ
  z : ℝ
  stellar_mass : ℚ

/-- A disk-bearing small star in the radiation pass: position (cm) and
current disk radius in cm (`ss.disk_radius.value_in(units.cm)`). -/
structure FStar where
  x : ℝ
  y : ℝ
  z : ℝ
  disk_radius_cm : ℝ

/-- `distance(star1, star2)` from the source:
`sqrt((x2-x1)**2 + (y2-y1)**2 + (z2-z1)**2)`. -/
noncomputable def star_distance (s : BrightStar) (ss : FStar) : ℝ :=
  Real.sqrt ((ss.x - s.x) ^ 2 + (ss.y - s.y) ^ 2 + (ss.z - s.z) ^ 2)

/-- AMUSE conversion 1 LSun = 3.828e33 erg/s, applied by
`lum.value_in(units.erg / units.s)`. -/
noncomputable def LSun_in_erg_s : ℝ := 3.828e33

/-- `radiation_at_distance(rad, d)` from the source: `rad / (4 pi d**2)`. -/
noncomputable def radiation_at_distance (rad d : ℝ) : ℝ :=
  rad / (4 * Real.pi * d ^ 2)

/-- The EUV proximity threshold of the radiation loop:
`dmin = 5. * 1E17 * 0.25 * sqrt(disk_radius_cm / 1E14)` (cm). -/
noncomputable def dmin (ss : FStar) : ℝ :=
  5 * 1e17 * 0.25 * Real.sqrt (ss.disk_radius_cm / 1e14)

/-- One bright star's incident-FUV contribution in G0 units:
`radiation_at_distance(lum_erg_s, dist_cm) / 1.6E-3`, with the luminosity
from `luminosity_fit`. -/
noncomputable def fuv_contribution_G0 (s : BrightStar) (ss : FStar) : ℝ :=
  radiation_at_distance (luminosity_fit s.stellar_mass * LSun_in_erg_s)
    (star_distance s ss) / 1.6e-3

open scoped Classical in
/-- `total_radiation[ss.key]` as accumulated by the nested loops of `main`:
for each bright star, if its distance to the small star is below `dmin` the
EUV flag is set and nothing is added; otherwise its G0 contribution is
added. -/
noncomputable def total_radiation (bright : List BrightStar) (ss : FStar) :
    ℝ :=
  bright.foldl
    (fun acc s =>
      if star_distance s ss < dmin ss then acc
      else acc + fuv_contribution_G0 s ss) 0

/-- Modelled from the claim for C6 (the spec's words): the sum of the
incident FUV flux contributions of ALL ionizing (bright) stars, with no
proximity exclusion. -/
noncomputable def claim_total_flux (bright : List BrightStar) (ss : FStar) :
    ℝ :=
  (bright.map (fun s => fuv_contribution_G0 s ss)).sum

open scoped Classical in
/-- C6 (amended): the FUV-flux coordinate of the interpolation query point
(`xi[0][1] = total_radiation[ss.key]`) equals the sum of the G0
contributions of exactly those bright stars whose distance to the
disk-bearing star is not below the EUV threshold `dmin`; a bright star
closer than `dmin` sets the EUV flag and contributes nothing (the original
claim, summing over all bright stars, is refuted by
`fuv_flux_excludes_near_star`). -/
theorem total_radiation_eq_far_sum (bright : List BrightStar) (ss : FStar) :
    total_radiation bright ss =
      ((bright.filter
          (fun s => !(decide (star_distance s ss < dmin ss)))).map
        (fun s => fuv_contribution_G0 s ss)).sum := by
  have hgen : ∀ (l : List BrightStar) (acc : ℝ),
      l.foldl
        (fun acc s =>
          if star_distance s ss < dmin ss then acc
          else acc + fuv_contribution_G0 s ss) acc =
      acc + ((l.filter
          (fun s => !(decide (star_distance s ss < dmin ss)))).map
        (fun s => fuv_contribution_G0 s ss)).sum := by
    intro l
    induction l with
    | nil => intro acc; simp
    | cons s rest ih =>
      intro acc
      rw [List.foldl_cons, List.filter_cons]
      by_cases hd : star_distance s ss < dmin ss
      · rw [if_pos hd, ih, if_neg (by simp [hd])]
      · rw [if_neg hd, ih, if_pos (by simp [hd]), List.map_cons,
          List.sum_cons]
        ring
  rw [total_radiation, hgen, zero_add]

/-- Counterexample for C6 as stated: a single bright star of 21 MSun at
1e17 cm from a disk of radius 4e14 cm lies inside `dmin = 2.5e17` cm, so the
code's FUV-flux coordinate is 0 while the claim's all-stars sum is the
star's nonzero contribution. -/
theorem fuv_flux_excludes_near_star :
    total_radiation [⟨0, 0, 0, 21⟩] ⟨1e17, 0, 0, 4e14⟩ = 0 ∧
    claim_total_flux [⟨0, 0, 0, 21⟩] ⟨1e17, 0, 0, 4e14⟩ ≠ 0 := by
  have hdist : star_distance ⟨0, 0, 0, 21⟩ ⟨1e17, 0, 0, 4e14⟩ = 1e17 := by
    rw [star_distance]
    rw [show (((1e17 : ℝ) - 0) ^ 2 + ((0 : ℝ) - 0) ^ 2 +
        ((0 : ℝ) - 0) ^ 2) = (1e17 : ℝ) ^ 2 by norm_num]
    rw [Real.sqrt_sq (by norm_num)]
  have hdmin : dmin ⟨1e17, 0, 0, 4e14⟩ = 2.5e17 := by
    rw [dmin]
    rw [show ((4e14 : ℝ) / 1e14) = (2 : ℝ) ^ 2 by norm_num]
    rw [Real.sqrt_sq (by norm_num)]
    norm_num
  constructor
  · rw [total_radiation, List.foldl_cons, hdist, hdmin,
      if_pos (by norm_num : (1e17 : ℝ) < 2.5e17), List.foldl_nil]
  · have hlum : luminosity_fit 21 = 1.31175e2 * ((21 : ℚ) : ℝ) ^ (1.7974 : ℝ) := by
      rw [luminosity_fit]
      norm_num
    rw [claim_total_flux, List.map_cons, List.map_nil, List.sum_cons,
      List.sum_nil, add_zero, fuv_contribution_G0, radiation_at_distance,
      hdist, hlum, LSun_in_erg_s]
    have hpi := Real.pi_pos
    have hrpow : (0 : ℝ) < ((21 : ℚ) : ℝ) ^ (1.7974 : ℝ) :=
      Real.rpow_pos_of_pos (by norm_num) _
    positivity

end VaderCluster
